import Mathlib

/-!
Verification of the onetwo caching core (`onetwo/core/caching.py`).

The caching engine itself is modelled from the specification (the module under
test, `caching.py`, is referenced by `caching_test.py`); every behavioural
detail is cross-checked against the concrete assertions of
`onetwo/core/caching_test.py`.  Keys, sampling identities and cached values are
opaque, so they are type parameters `K`, `S`, `V` with decidable equality.
-/

set_option linter.unusedSectionVars false
set_option linter.unusedVariables false

namespace OneTwo

/-- Association-list lookup (Python `dict.get`): first entry whose key matches. -/
def alookup {α β : Type} [DecidableEq α] : List (α × β) → α → Option β
  | [], _ => none
  | x :: xs, a => if x.1 = a then some x.2 else alookup xs a

/-- Association-list assignment (Python `dict[k] = v`): replace the first
entry for the key in place, or append the new entry at the end. -/
def aupd {α β : Type} [DecidableEq α] : List (α × β) → α → β → List (α × β)
  | [], a, b => [(a, b)]
  | x :: xs, a, b => if x.1 = a then (a, b) :: xs else x :: aupd xs a b

theorem alookup_nil {α β : Type} [DecidableEq α] (a : α) :
    alookup ([] : List (α × β)) a = none := rfl

theorem alookup_cons {α β : Type} [DecidableEq α] (x : α × β) (xs : List (α × β)) (a : α) :
    alookup (x :: xs) a = if x.1 = a then some x.2 else alookup xs a := rfl

theorem alookup_aupd_self {α β : Type} [DecidableEq α]
    (l : List (α × β)) (a : α) (b : β) : alookup (aupd l a b) a = some b := by
  induction l with
  | nil => simp [aupd, alookup]
  | cons x xs ih =>
      by_cases h : x.1 = a
      · simp [aupd, alookup, h]
      · simp [aupd, alookup, h, ih]

theorem alookup_aupd_ne {α β : Type} [DecidableEq α]
    (l : List (α × β)) (a a' : α) (b : β) (h : a' ≠ a) :
    alookup (aupd l a b) a' = alookup l a' := by
  induction l with
  | nil =>
      simp [aupd, alookup]
      exact fun e => h e.symm
  | cons x xs ih =>
      by_cases hx : x.1 = a
      · simp [aupd, alookup, hx, Ne.symm h]
      · by_cases hx' : x.1 = a'
        · simp [aupd, alookup, hx, hx', h]
        · simp [aupd, alookup, hx, hx', ih]

theorem alookup_mem {α β : Type} [DecidableEq α]
    {l : List (α × β)} {a : α} {b : β} (h : alookup l a = some b) : (a, b) ∈ l := by
  induction l with
  | nil => simp [alookup] at h
  | cons x xs ih =>
      obtain ⟨x1, x2⟩ := x
      by_cases hx : x1 = a
      · simp [alookup, hx] at h
        simp [hx, h]
      · simp [alookup, hx] at h
        exact List.mem_cons_of_mem _ (ih h)

/-- The five diagnostic counters maintained by `SimpleFunctionCache._counters`
(observed in `caching_test.py`): `add_new`, `add_new_sample`, `add_redundant`,
`add_overwrote`, `get_hit`. -/
structure CacheCounters where
  add_new : Nat
  add_new_sample : Nat
  add_redundant : Nat
  add_overwrote : Nat
  get_hit : Nat
deriving DecidableEq, Repr

def initCounters : CacheCounters := ⟨0, 0, 0, 0, 0⟩

def CacheCounters.bumpNew (c : CacheCounters) : CacheCounters :=
  { c with add_new := c.add_new + 1 }

def CacheCounters.bumpNewSample (c : CacheCounters) : CacheCounters :=
  { c with add_new_sample := c.add_new_sample + 1 }

def CacheCounters.bumpRedundant (c : CacheCounters) : CacheCounters :=
  { c with add_redundant := c.add_redundant + 1 }

def CacheCounters.bumpOverwrote (c : CacheCounters) : CacheCounters :=
  { c with add_overwrote := c.add_overwrote + 1 }

def CacheCounters.bumpHit (c : CacheCounters) : CacheCounters :=
  { c with get_hit := c.get_hit + 1 }

/-- Modelled from the spec: the `SimpleFunctionCache` store of
`onetwo/core/caching.py` (not under src/; its fields `_values_by_key`,
`_num_used_values_by_key`, `_counters` and `calls_in_progress` are observed by
`caching_test.py`).  Per spec §3, each key owns an ordered value pool, a
mapping from sampling identity to a fixed pool index, and a counter of
assigned sampling identities.  The in-flight key set lives on the store, as
`handler.calls_in_progress` in the tests. -/
structure SimpleFunctionCache (K S V : Type) where
  values_by_key : List (K × List V)
  sample_id_by_key : List ((K × S) × Nat)
  num_used_values_by_key : List (K × Nat)
  counters : CacheCounters
  calls_in_progress : List K
deriving DecidableEq

def emptyCache {K S V : Type} : SimpleFunctionCache K S V :=
  ⟨[], [], [], initCounters, []⟩

def lookupCount {K : Type} [DecidableEq K] (l : List (K × Nat)) (k : K) : Nat :=
  (alookup l k).getD 0

variable {K S V : Type} [DecidableEq K] [DecidableEq S] [DecidableEq V]

/-- Modelled from the spec: `SimpleFunctionCache.cache_value` (spec §4.1
`write`), cross-checked against `caching_test.py` lines 471-631.
1. Unseen key: create pool `[value]`; if a sampling identity is present map it
   to index 0 and set the assigned-count to 1; count `add_new`.
2. Known key, identity absent or unmapped: append the value; if present and
   unmapped, map it to `assigned-count % (pool length before the append)` and
   increment the assigned-count; count `add_new_sample`.
3. Known key, identity mapped to `i`: if the value equals the one at index `i`
   do nothing but count `add_redundant`; otherwise overwrite index `i` and
   count `add_overwrote`. -/
def cache_value (c : SimpleFunctionCache K S V) (key : K) (skey : Option S)
    (v : V) : SimpleFunctionCache K S V :=
  match alookup c.values_by_key key with
  | none =>
      match skey with
      | none =>
          { c with values_by_key := aupd c.values_by_key key [v],
                   counters := c.counters.bumpNew }
      | some s =>
          { c with values_by_key := aupd c.values_by_key key [v],
                   sample_id_by_key := aupd c.sample_id_by_key (key, s) 0,
                   num_used_values_by_key := aupd c.num_used_values_by_key key 1,
                   counters := c.counters.bumpNew }
  | some pool =>
      match skey with
      | none =>
          { c with values_by_key := aupd c.values_by_key key (pool ++ [v]),
                   counters := c.counters.bumpNewSample }
      | some s =>
          match alookup c.sample_id_by_key (key, s) with
          | none =>
              let cnt := lookupCount c.num_used_values_by_key key
              { c with values_by_key := aupd c.values_by_key key (pool ++ [v]),
                       sample_id_by_key :=
                         aupd c.sample_id_by_key (key, s) (cnt % pool.length),
                       num_used_values_by_key :=
                         aupd c.num_used_values_by_key key (cnt + 1),
                       counters := c.counters.bumpNewSample }
          | some i =>
              if pool[i]? = some v then
                { c with counters := c.counters.bumpRedundant }
              else
                { c with values_by_key := aupd c.values_by_key key (pool.set i v),
                         counters := c.counters.bumpOverwrote }

/-- Modelled from the spec: `SimpleFunctionCache.get_cached_value` (spec §4.1
`read`), cross-checked against `caching_test.py` lines 542-577 and 621-631.
1. Unseen key: absent, store untouched.
2. Identity absent: the value at index 0.
3. Identity mapped to `i`: the value at index `i`; count `get_hit`.
4. Identity unmapped: map it to `assigned-count % pool length`, increment the
   assigned-count, return the value at that index; count `get_hit`. -/
def get_cached_value (c : SimpleFunctionCache K S V) (key : K)
    (skey : Option S) : Option V × SimpleFunctionCache K S V :=
  match alookup c.values_by_key key with
  | none => (none, c)
  | some pool =>
      match skey with
      | none => (pool[0]?, c)
      | some s =>
          match alookup c.sample_id_by_key (key, s) with
          | some i => (pool[i]?, { c with counters := c.counters.bumpHit })
          | none =>
              let cnt := lookupCount c.num_used_values_by_key key
              let idx := cnt % pool.length
              (pool[idx]?,
               { c with sample_id_by_key := aupd c.sample_id_by_key (key, s) idx,
                        num_used_values_by_key :=
                          aupd c.num_used_values_by_key key (cnt + 1),
                        counters := c.counters.bumpHit })

/-- Well-formedness: every pool is non-empty and every mapped sampling
identity points inside its key's pool. -/
def WF (c : SimpleFunctionCache K S V) : Prop :=
  (∀ p ∈ c.values_by_key, p.2 ≠ []) ∧
  (∀ q ∈ c.sample_id_by_key,
     q.2 < ((alookup c.values_by_key q.1.1).getD []).length)

instance (c : SimpleFunctionCache K S V) : Decidable (WF c) := by
  unfold WF
  infer_instance

/-- A single client-visible operation on the store. -/
inductive CacheOp (K S V : Type) where
  | write (key : K) (skey : Option S) (v : V)
  | read (key : K) (skey : Option S)
deriving DecidableEq

def applyOp (c : SimpleFunctionCache K S V) : CacheOp K S V → SimpleFunctionCache K S V
  | .write key skey v => cache_value c key skey v
  | .read key skey => (get_cached_value c key skey).2

def applyOps (c : SimpleFunctionCache K S V) : List (CacheOp K S V) → SimpleFunctionCache K S V
  | [] => c
  | op :: ops => applyOps (applyOp c op) ops

/-- The payload serialized by `write_to_directory` and reconstructed by
`create_from_file`: the per-key value pools plus the sampling-identity
mapping state accumulated so far (spec §4.5; `caching_test.py` lines 645-695
shows that `restore_mapping=True` reproduces pre-save mapped reads, so the
mapping state is part of the persisted payload). -/
structure PersistedCache (K S V : Type) where
  values_by_key : List (K × List V)
  sample_id_by_key : List ((K × S) × Nat)
  num_used_values_by_key : List (K × Nat)
deriving DecidableEq

def savePayload (c : SimpleFunctionCache K S V) : PersistedCache K S V :=
  ⟨c.values_by_key, c.sample_id_by_key, c.num_used_values_by_key⟩

/-- Modelled from the spec: `SimpleFunctionCache.create_from_file` of
`caching.py` (not under src/), spec §4.5.  Value sequences are restored
verbatim; with `restore_mapping` the identity→index mappings and per-key
assigned-counts are restored too, otherwise they start empty so round-robin
assignment restarts from 0. -/
def create_from_file (d : PersistedCache K S V) (restore_mapping : Bool) :
    SimpleFunctionCache K S V :=
  { values_by_key := d.values_by_key
    sample_id_by_key := if restore_mapping then d.sample_id_by_key else []
    num_used_values_by_key := if restore_mapping then d.num_used_values_by_key else []
    counters := initCounters
    calls_in_progress := [] }

def add_json_extension (s : String) : String := s ++ ".json"

/-- Modelled from the spec: `SimpleFunctionCache.write_to_directory` of
`caching.py` (not under src/), spec §4.5 and `caching_test.py` lines 455-469.
The directory is modelled as an association of file names to persisted
payloads.  If the deterministically named target file already exists the save
fails with an already-exists error and the directory is left untouched;
otherwise the serialized payload is written under that name. -/
def write_to_directory (dir : List (String × PersistedCache K S V))
    (c : SimpleFunctionCache K S V) (cache_filename : String) :
    Except String Unit × List (String × PersistedCache K S V) :=
  let path := add_json_extension cache_filename
  match alookup dir path with
  | some _ => (Except.error (path ++ " already exists."), dir)
  | none => (Except.ok (), aupd dir path (savePayload c))

/-- Modelled from the spec: the miss path of the `cache_method` wrapper of
`caching.py` (not under src/), spec §4.3-§4.4 and `caching_test.py` lines
426-449, 633-643.  The wrapped operation's outcome is passed in as an
`Except`: on a miss the key is added to `calls_in_progress`, the operation
runs, and the in-flight marker is removed unconditionally (Python
`try/finally`) whether the operation succeeds (its value is then written) or
fails (the failure is re-raised and nothing is written). -/
def cached_call {E : Type} (c : SimpleFunctionCache K S V) (key : K)
    (skey : Option S) (op : Except E V) :
    Except E V × SimpleFunctionCache K S V :=
  let r := get_cached_value c key skey
  match r.1 with
  | some v => (Except.ok v, r.2)
  | none =>
      let c1 := { r.2 with calls_in_progress := key :: r.2.calls_in_progress }
      match op with
      | Except.error e =>
          (Except.error e,
           { c1 with calls_in_progress :=
               c1.calls_in_progress.filter (fun x => decide (x ≠ key)) })
      | Except.ok v =>
          let c2 := cache_value c1 key skey v
          (Except.ok v,
           { c2 with calls_in_progress :=
               c2.calls_in_progress.filter (fun x => decide (x ≠ key)) })

/-- The shape of a wrapped operation's result as seen by the extra-replies
check: either a single (non-sequence) value or an ordered sequence. -/
inductive OpResult (V : Type) where
  | scalar (v : V)
  | seq (vs : List V)
deriving DecidableEq

/-- Modelled from the spec: the `cache_extra_replies=True` path of the
`cache_method` wrapper of `caching.py` (not under src/), spec §4.3 and
`caching_test.py` lines 118-136, 305-338.  On a miss, a non-sequence result
raises a contract-violation error before any cache mutation; a sequence's
first element is the canonical value written under the caller's sampling
identity, and the remaining elements are written with absent identity. -/
def cached_call_extra (c : SimpleFunctionCache K S V) (key : K)
    (skey : Option S) (res : OpResult V) :
    Except String V × SimpleFunctionCache K S V :=
  let r := get_cached_value c key skey
  match r.1 with
  | some v => (Except.ok v, r.2)
  | none =>
      match res with
      | OpResult.scalar _ =>
          (Except.error
            ("Method that is decorated with cache_method(cache_extra_replies" ++
             "=True) must return Sequence of values."), r.2)
      | OpResult.seq [] =>
          (Except.error
            ("Method that is decorated with cache_method(cache_extra_replies" ++
             "=True) must return Sequence of values."), r.2)
      | OpResult.seq (v :: extras) =>
          let c1 := cache_value r.2 key skey v
          let c2 := extras.foldl (fun acc x => cache_value acc key none x) c1
          (Except.ok v, c2)

/-- The `TestCache` of `caching_test.py` lines 40-74 with
`append_when_caching=True`: keyed by the pair (key, sampling_key), each entry
holding the list of values appended for that pair. -/
structure TestCache (K V : Type) where
  contents : List ((K × Option String) × List V)
deriving DecidableEq

def TestCache.cache_value [DecidableEq K] [DecidableEq V] (c : TestCache K V)
    (key : K) (skey : Option String) (v : V) : TestCache K V :=
  match alookup c.contents (key, skey) with
  | none => ⟨aupd c.contents (key, skey) [v]⟩
  | some vs => ⟨aupd c.contents (key, skey) (vs ++ [v])⟩

/-- Modelled from the spec: the sampling-identity supply of the
`cache_method` wrapper for `is_sampled=True` methods called without a
surrounding execution context (`caching.py` is not under src/; the behavior
is pinned by the assertions of `caching_test.py` lines 256-267 and 305-329):
the canonical value is cached under the empty-string sampling key, while in
extra-replies mode each extra value is cached under the absent (`None`)
sampling key. -/
def run_sampled_extra_replies_call [DecidableEq K] [DecidableEq V]
    (c : TestCache K V) (key : K) (res : List V) : Option V × TestCache K V :=
  match res with
  | [] => (none, c)
  | v :: extras =>
      let c1 := TestCache.cache_value c key (some "") v
      let c2 := extras.foldl (fun acc x => TestCache.cache_value acc key none x) c1
      (some v, c2)

theorem mem_aupd {α β : Type} [DecidableEq α] {l : List (α × β)} {a : α}
    {b : β} {p : α × β} (hp : p ∈ aupd l a b) : p = (a, b) ∨ p ∈ l := by
  induction l with
  | nil => simpa [aupd] using hp
  | cons x xs ih =>
      by_cases hx : x.1 = a
      · simp [aupd, hx] at hp
        rcases hp with rfl | hp'
        · exact Or.inl rfl
        · exact Or.inr (List.mem_cons_of_mem _ hp')
      · simp [aupd, hx] at hp
        rcases hp with rfl | hp'
        · exact Or.inr (List.mem_cons_self _ _)
        · rcases ih hp' with h | h
          · exact Or.inl h
          · exact Or.inr (List.mem_cons_of_mem _ h)

section BranchLemmas

variable (c : SimpleFunctionCache K S V) (key : K) (s : S) (v : V)

theorem cache_value_new_none (hv : alookup c.values_by_key key = none) :
    cache_value c key none v =
      { c with values_by_key := aupd c.values_by_key key [v],
               counters := c.counters.bumpNew } := by
  simp [cache_value, hv]

theorem cache_value_new_some (hv : alookup c.values_by_key key = none) :
    cache_value c key (some s) v =
      { c with values_by_key := aupd c.values_by_key key [v],
               sample_id_by_key := aupd c.sample_id_by_key (key, s) 0,
               num_used_values_by_key := aupd c.num_used_values_by_key key 1,
               counters := c.counters.bumpNew } := by
  simp [cache_value, hv]

theorem cache_value_append_none {pool : List V}
    (hv : alookup c.values_by_key key = some pool) :
    cache_value c key none v =
      { c with values_by_key := aupd c.values_by_key key (pool ++ [v]),
               counters := c.counters.bumpNewSample } := by
  simp [cache_value, hv]

theorem cache_value_append_some {pool : List V}
    (hv : alookup c.values_by_key key = some pool)
    (hs : alookup c.sample_id_by_key (key, s) = none) :
    cache_value c key (some s) v =
      { c with values_by_key := aupd c.values_by_key key (pool ++ [v]),
               sample_id_by_key :=
                 aupd c.sample_id_by_key (key, s)
                   (lookupCount c.num_used_values_by_key key % pool.length),
               num_used_values_by_key :=
                 aupd c.num_used_values_by_key key
                   (lookupCount c.num_used_values_by_key key + 1),
               counters := c.counters.bumpNewSample } := by
  simp [cache_value, hv, hs]

theorem cache_value_redundant {pool : List V} {i : Nat}
    (hv : alookup c.values_by_key key = some pool)
    (hs : alookup c.sample_id_by_key (key, s) = some i)
    (he : pool[i]? = some v) :
    cache_value c key (some s) v =
      { c with counters := c.counters.bumpRedundant } := by
  simp [cache_value, hv, hs, he]

theorem cache_value_overwrite {pool : List V} {i : Nat}
    (hv : alookup c.values_by_key key = some pool)
    (hs : alookup c.sample_id_by_key (key, s) = some i)
    (he : pool[i]? ≠ some v) :
    cache_value c key (some s) v =
      { c with values_by_key := aupd c.values_by_key key (pool.set i v),
               counters := c.counters.bumpOverwrote } := by
  simp [cache_value, hv, hs, he]

theorem get_cached_value_miss (skey : Option S)
    (hv : alookup c.values_by_key key = none) :
    get_cached_value c key skey = (none, c) := by
  simp [get_cached_value, hv]

theorem get_cached_value_none {pool : List V}
    (hv : alookup c.values_by_key key = some pool) :
    get_cached_value c key none = (pool[0]?, c) := by
  simp [get_cached_value, hv]

theorem get_cached_value_mapped {pool : List V} {i : Nat}
    (hv : alookup c.values_by_key key = some pool)
    (hs : alookup c.sample_id_by_key (key, s) = some i) :
    get_cached_value c key (some s) =
      (pool[i]?, { c with counters := c.counters.bumpHit }) := by
  simp [get_cached_value, hv, hs]

theorem get_cached_value_novel {pool : List V}
    (hv : alookup c.values_by_key key = some pool)
    (hs : alookup c.sample_id_by_key (key, s) = none) :
    get_cached_value c key (some s) =
      (pool[lookupCount c.num_used_values_by_key key % pool.length]?,
       { c with sample_id_by_key :=
                  aupd c.sample_id_by_key (key, s)
                    (lookupCount c.num_used_values_by_key key % pool.length),
                num_used_values_by_key :=
                  aupd c.num_used_values_by_key key
                    (lookupCount c.num_used_values_by_key key + 1),
                counters := c.counters.bumpHit }) := by
  simp [get_cached_value, hv, hs]

end BranchLemmas

theorem WF.pool_ne_nil {c : SimpleFunctionCache K S V} (h : WF c) {k : K}
    {pool : List V} (hv : alookup c.values_by_key k = some pool) : pool ≠ [] :=
  h.1 _ (alookup_mem hv)

theorem WF.no_sample_for_fresh {c : SimpleFunctionCache K S V} (h : WF c)
    {k : K} (hv : alookup c.values_by_key k = none) :
    ∀ q ∈ c.sample_id_by_key, q.1.1 ≠ k := by
  intro q hq e
  have hb := h.2 q hq
  rw [e, hv] at hb
  simp at hb

theorem WF_cache_value {c : SimpleFunctionCache K S V} (h : WF c)
    (key : K) (skey : Option S) (v : V) : WF (cache_value c key skey v) := by
  obtain ⟨h1, h2⟩ := h
  cases hv : alookup c.values_by_key key with
  | none =>
      have hnokey := WF.no_sample_for_fresh ⟨h1, h2⟩ hv
      cases skey with
      | none =>
          rw [cache_value_new_none c key v hv]
          refine ⟨?_, ?_⟩
          · intro p hp
            rcases mem_aupd hp with rfl | hp'
            · simp
            · exact h1 p hp'
          · intro q hq
            have hne := hnokey q hq
            simpa [alookup_aupd_ne _ _ _ _ hne] using h2 q hq
      | some s =>
          rw [cache_value_new_some c key s v hv]
          refine ⟨?_, ?_⟩
          · intro p hp
            rcases mem_aupd hp with rfl | hp'
            · simp
            · exact h1 p hp'
          · intro q hq
            rcases mem_aupd hq with rfl | hq'
            · simp [alookup_aupd_self]
            · have hne := hnokey q hq'
              simpa [alookup_aupd_ne _ _ _ _ hne] using h2 q hq'
  | some pool =>
      have hpne : pool ≠ [] := h1 _ (alookup_mem hv)
      have hlen : 0 < pool.length := List.length_pos.mpr hpne
      cases skey with
      | none =>
          rw [cache_value_append_none c key v hv]
          refine ⟨?_, ?_⟩
          · intro p hp
            rcases mem_aupd hp with rfl | hp'
            · simp
            · exact h1 p hp'
          · intro q hq
            by_cases e : q.1.1 = key
            · have hb := h2 q hq
              rw [e, hv] at hb
              rw [e, alookup_aupd_self]
              simp at hb ⊢
              omega
            · simpa [alookup_aupd_ne _ _ _ _ e] using h2 q hq
      | some s =>
          cases hs : alookup c.sample_id_by_key (key, s) with
          | none =>
              rw [cache_value_append_some c key s v hv hs]
              refine ⟨?_, ?_⟩
              · intro p hp
                rcases mem_aupd hp with rfl | hp'
                · simp
                · exact h1 p hp'
              · intro q hq
                rcases mem_aupd hq with rfl | hq'
                · rw [alookup_aupd_self]
                  simp only [Option.getD_some, List.length_append,
                    List.length_singleton]
                  have := Nat.mod_lt
                    (lookupCount c.num_used_values_by_key key) hlen
                  omega
                · by_cases e : q.1.1 = key
                  · have hb := h2 q hq'
                    rw [e, hv] at hb
                    rw [e, alookup_aupd_self]
                    simp at hb ⊢
                    omega
                  · simpa [alookup_aupd_ne _ _ _ _ e] using h2 q hq'
          | some i =>
              by_cases he : pool[i]? = some v
              · rw [cache_value_redundant c key s v hv hs he]
                exact ⟨h1, h2⟩
              · rw [cache_value_overwrite c key s v hv hs he]
                refine ⟨?_, ?_⟩
                · intro p hp
                  rcases mem_aupd hp with rfl | hp'
                  · simpa using hpne
                  · exact h1 p hp'
                · intro q hq
                  by_cases e : q.1.1 = key
                  · have hb := h2 q hq
                    rw [e, hv] at hb
                    rw [e, alookup_aupd_self]
                    simpa using hb
                  · simpa [alookup_aupd_ne _ _ _ _ e] using h2 q hq

theorem WF_get_cached_value {c : SimpleFunctionCache K S V} (h : WF c)
    (key : K) (skey : Option S) : WF (get_cached_value c key skey).2 := by
  obtain ⟨h1, h2⟩ := h
  cases hv : alookup c.values_by_key key with
  | none => rw [get_cached_value_miss c key skey hv]; exact ⟨h1, h2⟩
  | some pool =>
      have hpne : pool ≠ [] := h1 _ (alookup_mem hv)
      have hlen : 0 < pool.length := List.length_pos.mpr hpne
      cases skey with
      | none => rw [get_cached_value_none c key hv]; exact ⟨h1, h2⟩
      | some s =>
          cases hs : alookup c.sample_id_by_key (key, s) with
          | some i =>
              rw [get_cached_value_mapped c key s hv hs]
              exact ⟨h1, h2⟩
          | none =>
              rw [get_cached_value_novel c key s hv hs]
              refine ⟨h1, ?_⟩
              intro q hq
              rcases mem_aupd hq with rfl | hq'
              · simp only [hv, Option.getD_some]
                exact Nat.mod_lt _ hlen
              · exact h2 q hq'

theorem WF_applyOp {c : SimpleFunctionCache K S V} (h : WF c)
    (op : CacheOp K S V) : WF (applyOp c op) := by
  cases op with
  | write key skey v => exact WF_cache_value h key skey v
  | read key skey => exact WF_get_cached_value h key skey

theorem WF_applyOps {c : SimpleFunctionCache K S V} (h : WF c)
    (ops : List (CacheOp K S V)) : WF (applyOps c ops) := by
  induction ops generalizing c with
  | nil => exact h
  | cons op ops ih => exact ih (WF_applyOp h op)

theorem mapping_preserved_cache_value {c : SimpleFunctionCache K S V}
    (h : WF c) {k : K} {s : S} {i : Nat}
    (hm : alookup c.sample_id_by_key (k, s) = some i)
    (key : K) (skey : Option S) (v : V) :
    alookup (cache_value c key skey v).sample_id_by_key (k, s) = some i := by
  cases hv : alookup c.values_by_key key with
  | none =>
      have hne : k ≠ key := (WF.no_sample_for_fresh h hv _ (alookup_mem hm))
      cases skey with
      | none => rw [cache_value_new_none c key v hv]; exact hm
      | some s' =>
          rw [cache_value_new_some c key s' v hv]
          have : (k, s) ≠ (key, s') := by
            intro e
            exact hne (congrArg Prod.fst e)
          rw [alookup_aupd_ne _ _ _ _ this]
          exact hm
  | some pool =>
      cases skey with
      | none => rw [cache_value_append_none c key v hv]; exact hm
      | some s' =>
          cases hs : alookup c.sample_id_by_key (key, s') with
          | none =>
              rw [cache_value_append_some c key s' v hv hs]
              have : (k, s) ≠ (key, s') := by
                intro e
                rw [e] at hm
                rw [hm] at hs
                exact Option.noConfusion hs
              rw [alookup_aupd_ne _ _ _ _ this]
              exact hm
          | some j =>
              by_cases he : pool[j]? = some v
              · rw [cache_value_redundant c key s' v hv hs he]; exact hm
              · rw [cache_value_overwrite c key s' v hv hs he]; exact hm

theorem mapping_preserved_get {c : SimpleFunctionCache K S V}
    {k : K} {s : S} {i : Nat}
    (hm : alookup c.sample_id_by_key (k, s) = some i)
    (key : K) (skey : Option S) :
    alookup (get_cached_value c key skey).2.sample_id_by_key (k, s) = some i := by
  cases hv : alookup c.values_by_key key with
  | none => rw [get_cached_value_miss c key skey hv]; exact hm
  | some pool =>
      cases skey with
      | none => rw [get_cached_value_none c key hv]; exact hm
      | some s' =>
          cases hs : alookup c.sample_id_by_key (key, s') with
          | some j => rw [get_cached_value_mapped c key s' hv hs]; exact hm
          | none =>
              rw [get_cached_value_novel c key s' hv hs]
              have : (k, s) ≠ (key, s') := by
                intro e
                rw [e] at hm
                rw [hm] at hs
                exact Option.noConfusion hs
              simp only
              rw [alookup_aupd_ne _ _ _ _ this]
              exact hm

theorem mapping_preserved_applyOp {c : SimpleFunctionCache K S V}
    (h : WF c) {k : K} {s : S} {i : Nat}
    (hm : alookup c.sample_id_by_key (k, s) = some i) (op : CacheOp K S V) :
    alookup (applyOp c op).sample_id_by_key (k, s) = some i := by
  cases op with
  | write key skey v => exact mapping_preserved_cache_value h hm key skey v
  | read key skey => exact mapping_preserved_get hm key skey

theorem mapping_preserved_applyOps {c : SimpleFunctionCache K S V}
    (h : WF c) {k : K} {s : S} {i : Nat}
    (hm : alookup c.sample_id_by_key (k, s) = some i)
    (ops : List (CacheOp K S V)) :
    alookup (applyOps c ops).sample_id_by_key (k, s) = some i := by
  induction ops generalizing c with
  | nil => exact hm
  | cons op ops ih =>
      exact ih (WF_applyOp h op) (mapping_preserved_applyOp h hm op)

theorem get_values_unchanged (c : SimpleFunctionCache K S V) (key : K)
    (skey : Option S) :
    (get_cached_value c key skey).2.values_by_key = c.values_by_key := by
  cases hv : alookup c.values_by_key key with
  | none => rw [get_cached_value_miss c key skey hv]
  | some pool =>
      cases skey with
      | none => rw [get_cached_value_none c key hv]
      | some s =>
          cases hs : alookup c.sample_id_by_key (key, s) with
          | some i => rw [get_cached_value_mapped c key s hv hs]
          | none => rw [get_cached_value_novel c key s hv hs]

theorem read_at_mapped {c : SimpleFunctionCache K S V} (h : WF c) {k : K}
    {s : S} {i : Nat} (hm : alookup c.sample_id_by_key (k, s) = some i) :
    (get_cached_value c k (some s)).1 =
      ((alookup c.values_by_key k).getD [])[i]? := by
  have hb := h.2 _ (alookup_mem hm)
  cases hv : alookup c.values_by_key k with
  | none => rw [hv] at hb; simp at hb
  | some pool => rw [get_cached_value_mapped c k s hv hm]; rfl

/-- The store obtained from an empty cache by the write sequence
`write(k, absent, v1)`, `write(k, absent, v2)`, `write(k, s1, v3)`. -/
def c1Store (k : K) (s1 : S) (v1 v2 v3 : V) : SimpleFunctionCache K S V :=
  cache_value
    (cache_value (cache_value emptyCache k none v1) k none v2) k (some s1) v3

/-- C1: after `write(k, absent, v1)`, `write(k, absent, v2)`, `write(k, s1, v3)`
on a fresh key, the value pool for `k` is exactly `[v1, v2, v3]`, `s1` is
mapped to index 0 so `read(k, s1)` returns `v1`, and a subsequent `read(k, s2)`
with a distinct fresh sampling identity returns `v2` (index 1 = assigned-count
mod pool length) while the pool length stays 3. -/
theorem round_robin_scenario (k : K) (s1 s2 : S) (v1 v2 v3 : V)
    (h : s1 ≠ s2) :
    alookup (c1Store k s1 v1 v2 v3).values_by_key k = some [v1, v2, v3] ∧
    alookup (c1Store k s1 v1 v2 v3).sample_id_by_key (k, s1) = some 0 ∧
    (get_cached_value (c1Store k s1 v1 v2 v3) k (some s1)).1 = some v1 ∧
    (get_cached_value (c1Store k s1 v1 v2 v3) k (some s2)).1 = some v2 ∧
    ((alookup (get_cached_value (c1Store k s1 v1 v2 v3) k
        (some s2)).2.values_by_key k).getD []).length = 3 := by
  refine ⟨?_, ?_, ?_, ?_, ?_⟩ <;>
    simp [c1Store, emptyCache, cache_value, get_cached_value, alookup, aupd,
      lookupCount, h, Ne.symm h]

/-- Witness for C1 at concrete inputs. -/
theorem round_robin_scenario_witness :
    alookup (c1Store (K := Nat) (S := Nat) (V := Nat) 0 1 10 20 30).values_by_key 0 =
      some [10, 20, 30] ∧
    alookup (c1Store (K := Nat) (S := Nat) (V := Nat) 0 1 10 20 30).sample_id_by_key (0, 1) =
      some 0 ∧
    (get_cached_value (c1Store (K := Nat) (S := Nat) (V := Nat) 0 1 10 20 30) 0 (some 1)).1 =
      some 10 ∧
    (get_cached_value (c1Store (K := Nat) (S := Nat) (V := Nat) 0 1 10 20 30) 0 (some 2)).1 =
      some 20 ∧
    ((alookup (get_cached_value (c1Store (K := Nat) (S := Nat) (V := Nat) 0 1 10 20 30) 0
        (some 2)).2.values_by_key 0).getD []).length = 3 :=
  round_robin_scenario 0 1 2 10 20 30 (by decide)

/-- C2: once a sampling identity is mapped to index `i` for a key, any later
sequence of reads and writes (any keys, identities, values) leaves that
mapping at index `i`, and a read with that identity returns the value stored
at index `i` of the key's (possibly grown) pool. -/
theorem sampling_identity_mapping_stable {c : SimpleFunctionCache K S V}
    {k : K} {s : S} {i : Nat} (ops : List (CacheOp K S V)) (h1 : WF c)
    (h2 : alookup c.sample_id_by_key (k, s) = some i) :
    alookup (applyOps c ops).sample_id_by_key (k, s) = some i ∧
    (get_cached_value (applyOps c ops) k (some s)).1 =
      ((alookup (applyOps c ops).values_by_key k).getD [])[i]? := by
  have hm := mapping_preserved_applyOps h1 h2 ops
  exact ⟨hm, read_at_mapped (WF_applyOps h1 ops) hm⟩

/-- Witness for C2 at concrete inputs: identity 7 is mapped to index 0 for
key 0, and it stays there across later writes and reads. -/
theorem sampling_identity_mapping_stable_witness :
    alookup (applyOps
        (applyOps (emptyCache : SimpleFunctionCache Nat Nat Nat)
          [CacheOp.write 0 (some 7) 5])
        [CacheOp.write 0 none 6, CacheOp.read 0 (some 8),
         CacheOp.write 0 (some 7) 9, CacheOp.write 1 (some 7) 4]).sample_id_by_key
      (0, 7) = some 0 ∧
    (get_cached_value (applyOps
        (applyOps (emptyCache : SimpleFunctionCache Nat Nat Nat)
          [CacheOp.write 0 (some 7) 5])
        [CacheOp.write 0 none 6, CacheOp.read 0 (some 8),
         CacheOp.write 0 (some 7) 9, CacheOp.write 1 (some 7) 4]) 0 (some 7)).1 =
      ((alookup (applyOps
        (applyOps (emptyCache : SimpleFunctionCache Nat Nat Nat)
          [CacheOp.write 0 (some 7) 5])
        [CacheOp.write 0 none 6, CacheOp.read 0 (some 8),
         CacheOp.write 0 (some 7) 9, CacheOp.write 1 (some 7) 4]).values_by_key
          0).getD [])[0]? :=
  sampling_identity_mapping_stable
    [CacheOp.write 0 none 6, CacheOp.read 0 (some 8),
     CacheOp.write 0 (some 7) 9, CacheOp.write 1 (some 7) 4]
    (by decide) (by decide)

/-- C3: for a key whose sampling identity is already mapped to index `i`,
writing the value currently stored at index `i` mutates nothing and is
classified redundant, while writing a different value overwrites exactly
index `i` (no append, no new mapping, all other entries and keys unchanged)
and is classified overwrote; the pool length is unchanged in both cases. -/
theorem mapped_write_redundant_or_overwrote {c : SimpleFunctionCache K S V}
    {k : K} {s : S} {i : Nat} {pool : List V} (h1 : WF c)
    (hv : alookup c.values_by_key k = some pool)
    (hs : alookup c.sample_id_by_key (k, s) = some i) :
    (∀ v, pool[i]? = some v →
       cache_value c k (some s) v =
         { c with counters := c.counters.bumpRedundant }) ∧
    (∀ v w, pool[i]? = some w → v ≠ w →
       alookup (cache_value c k (some s) v).values_by_key k =
         some (pool.set i v) ∧
       (pool.set i v)[i]? = some v ∧
       (∀ j, j ≠ i → (pool.set i v)[j]? = pool[j]?) ∧
       (∀ k', k' ≠ k →
          alookup (cache_value c k (some s) v).values_by_key k' =
            alookup c.values_by_key k') ∧
       (cache_value c k (some s) v).sample_id_by_key = c.sample_id_by_key ∧
       (cache_value c k (some s) v).num_used_values_by_key =
         c.num_used_values_by_key ∧
       (cache_value c k (some s) v).counters = c.counters.bumpOverwrote ∧
       (pool.set i v).length = pool.length) := by
  have hb := h1.2 _ (alookup_mem hs)
  rw [hv] at hb
  simp only [Option.getD_some] at hb
  constructor
  · intro v he
    exact cache_value_redundant c k s v hv hs he
  · intro v w hw hne
    have he : pool[i]? ≠ some v := by
      rw [hw]
      intro e
      exact hne (Option.some.injEq _ _ ▸ e).symm
    rw [cache_value_overwrite c k s v hv hs he]
    refine ⟨?_, ?_, ?_, ?_, rfl, rfl, rfl, ?_⟩
    · exact alookup_aupd_self _ _ _
    · simp [List.getElem?_set_self, hb]
    · intro j hj
      simp [List.getElem?_set_ne (fun e => hj e.symm)]
    · intro k' hk'
      exact alookup_aupd_ne _ _ _ _ hk'
    · exact List.length_set _ _ _

/-- A concrete store in which sampling identity 5 is mapped to index 0 of
key 0's pool `[10, 20]`. -/
def c3WitnessStore : SimpleFunctionCache Nat Nat Nat :=
  applyOps emptyCache [CacheOp.write 0 none 10, CacheOp.write 0 (some 5) 20]

/-- Witness for C3 at concrete inputs: rewriting the mapped value 10 is
redundant and mutates nothing; writing 99 overwrites exactly index 0. -/
theorem mapped_write_redundant_or_overwrote_witness :
    cache_value c3WitnessStore 0 (some 5) 10 =
      { c3WitnessStore with
          counters := c3WitnessStore.counters.bumpRedundant } ∧
    alookup (cache_value c3WitnessStore 0 (some 5) 99).values_by_key 0 =
      some ([10, 20].set 0 99) ∧
    ([10, 20].set 0 99)[0]? = some 99 ∧
    ([10, 20].set 0 99)[1]? = [10, 20][1]? ∧
    (cache_value c3WitnessStore 0 (some 5) 99).sample_id_by_key =
      c3WitnessStore.sample_id_by_key ∧
    (cache_value c3WitnessStore 0 (some 5) 99).num_used_values_by_key =
      c3WitnessStore.num_used_values_by_key ∧
    (cache_value c3WitnessStore 0 (some 5) 99).counters =
      c3WitnessStore.counters.bumpOverwrote ∧
    ([10, 20].set 0 99).length = ([10, 20] : List Nat).length := by
  have H := @mapped_write_redundant_or_overwrote Nat Nat Nat _ _ _
    c3WitnessStore 0 5 0 [10, 20] (by decide) (by decide) (by decide)
  have H2 := H.2 99 10 (by decide) (by decide)
  exact ⟨H.1 10 (by decide), H2.1, H2.2.1, H2.2.2.1 1 (by decide),
    H2.2.2.2.2.1, H2.2.2.2.2.2.1, H2.2.2.2.2.2.2.1, H2.2.2.2.2.2.2.2⟩

/-- `true` unless the operation is a write to key `k` with an already-mapped
sampling identity whose mapped index is 0 and whose value differs from the
value currently stored at index 0 (the one store operation that can change
the pool entry returned by `read(k, absent)`). -/
def notZeroOverwriteB (c : SimpleFunctionCache K S V) (k : K) :
    CacheOp K S V → Bool
  | CacheOp.write k' (some s) v =>
      if k' = k then
        match alookup c.sample_id_by_key (k, s) with
        | some 0 => decide (((alookup c.values_by_key k).getD [])[0]? = some v)
        | some (_ + 1) => true
        | none => true
      else true
  | CacheOp.write _ none _ => true
  | CacheOp.read _ _ => true

/-- A trace of operations none of which overwrites index 0 of key `k`'s pool
with a different value, each judged at the store state it executes in. -/
def headSafe (c : SimpleFunctionCache K S V) (k : K) :
    List (CacheOp K S V) → Bool
  | [] => true
  | op :: ops => notZeroOverwriteB c k op && headSafe (applyOp c op) k ops

theorem head_preserved_step {c : SimpleFunctionCache K S V} (h : WF c)
    {k : K} {v0 : V}
    (hhead : ((alookup c.values_by_key k).getD [])[0]? = some v0)
    {op : CacheOp K S V} (hop : notZeroOverwriteB c k op = true) :
    ((alookup (applyOp c op).values_by_key k).getD [])[0]? = some v0 := by
  cases hvk : alookup c.values_by_key k with
  | none => rw [hvk] at hhead; simp at hhead
  | some pool =>
  rw [hvk] at hhead
  simp only [Option.getD_some] at hhead
  have hlen : 0 < pool.length := by
    rcases List.getElem?_eq_some.mp hhead with ⟨hlt, _⟩
    exact hlt
  cases op with
  | read key skey =>
      show ((alookup (get_cached_value c key skey).2.values_by_key k).getD [])[0]? = some v0
      rw [get_values_unchanged, hvk]
      simpa using hhead
  | write key skey v =>
      show ((alookup (cache_value c key skey v).values_by_key k).getD [])[0]? = some v0
      by_cases hk : key = k
      · subst hk
        cases skey with
        | none =>
            rw [cache_value_append_none c key v hvk]
            simp only
            rw [alookup_aupd_self]
            simp only [Option.getD_some]
            rw [List.getElem?_append, if_pos hlen]
            exact hhead
        | some s =>
            cases hs : alookup c.sample_id_by_key (key, s) with
            | none =>
                rw [cache_value_append_some c key s v hvk hs]
                simp only
                rw [alookup_aupd_self]
                simp only [Option.getD_some]
                rw [List.getElem?_append, if_pos hlen]
                exact hhead
            | some i =>
                by_cases he : pool[i]? = some v
                · rw [cache_value_redundant c key s v hvk hs he]
                  simp only
                  rw [hvk]
                  simpa using hhead
                · rw [cache_value_overwrite c key s v hvk hs he]
                  simp only
                  rw [alookup_aupd_self]
                  simp only [Option.getD_some]
                  cases i with
                  | zero =>
                      exfalso
                      simp only [notZeroOverwriteB, hs, hvk] at hop
                      simp only [eq_self_iff_true, if_true,
                        Option.getD_some, decide_eq_true_eq] at hop
                      exact he hop
                  | succ j =>
                      rw [List.getElem?_set_ne (by omega)]
                      exact hhead
      · have hk' : k ≠ key := fun e => hk e.symm
        cases hv' : alookup c.values_by_key key with
        | none =>
            cases skey with
            | none =>
                rw [cache_value_new_none c key v hv']
                simp only
                rw [alookup_aupd_ne _ _ _ _ hk', hvk]
                simpa using hhead
            | some s =>
                rw [cache_value_new_some c key s v hv']
                simp only
                rw [alookup_aupd_ne _ _ _ _ hk', hvk]
                simpa using hhead
        | some pool' =>
            cases skey with
            | none =>
                rw [cache_value_append_none c key v hv']
                simp only
                rw [alookup_aupd_ne _ _ _ _ hk', hvk]
                simpa using hhead
            | some s =>
                cases hs : alookup c.sample_id_by_key (key, s) with
                | none =>
                    rw [cache_value_append_some c key s v hv' hs]
                    simp only
                    rw [alookup_aupd_ne _ _ _ _ hk', hvk]
                    simpa using hhead
                | some i =>
                    by_cases he : pool'[i]? = some v
                    · rw [cache_value_redundant c key s v hv' hs he]
                      simp only
                      rw [hvk]
                      simpa using hhead
                    · rw [cache_value_overwrite c key s v hv' hs he]
                      simp only
                      rw [alookup_aupd_ne _ _ _ _ hk', hvk]
                      simpa using hhead

theorem head_preserved {c : SimpleFunctionCache K S V} (h : WF c) {k : K}
    {v0 : V} {ops : List (CacheOp K S V)}
    (hhead : ((alookup c.values_by_key k).getD [])[0]? = some v0)
    (hsafe : headSafe c k ops = true) :
    ((alookup (applyOps c ops).values_by_key k).getD [])[0]? = some v0 := by
  induction ops generalizing c with
  | nil => exact hhead
  | cons op ops ih =>
      rw [headSafe, Bool.and_eq_true] at hsafe
      exact ih (WF_applyOp h op) (head_preserved_step h hhead hsafe.1) hsafe.2

/-- C4 counterexample: from an empty store, `write(0, absent, 10)`,
`write(0, s=5, 20)` (maps identity 5 to index 0), then `write(0, s=5, 30)`
overwrites index 0, so `read(0, absent)` returns 30, not the first-ever
written value 10 — the claim fails with subsequent writes of this shape. -/
theorem read_absent_not_always_first_write :
    (get_cached_value
        (applyOps (emptyCache : SimpleFunctionCache Nat Nat Nat)
          [CacheOp.write 0 none 10, CacheOp.write 0 (some 5) 20,
           CacheOp.write 0 (some 5) 30]) 0 none).1 = some 30 ∧
    (some 30 : Option Nat) ≠ some 10 := by decide

/-- C4 (amended): for a fresh key `k`, after a first write of `v0` and any
further trace of reads and writes in which no write overwrites index 0 of
`k`'s pool with a different value (in particular, any number of writes with
absent or not-yet-mapped sampling identities), `read(k, absent)` returns
`v0`, the value of the very first write for `k`. -/
theorem read_absent_returns_first_write {c : SimpleFunctionCache K S V}
    {k : K} (s0 : Option S) (v0 : V) (ops : List (CacheOp K S V))
    (h1 : WF c) (h2 : alookup c.values_by_key k = none)
    (h3 : headSafe (cache_value c k s0 v0) k ops = true) :
    (get_cached_value (applyOps (cache_value c k s0 v0) ops) k none).1 =
      some v0 := by
  have hw : WF (cache_value c k s0 v0) := WF_cache_value h1 k s0 v0
  have hhead : ((alookup (cache_value c k s0 v0).values_by_key k).getD
      [])[0]? = some v0 := by
    cases s0 with
    | none =>
        rw [cache_value_new_none c k v0 h2]
        simp only
        rw [alookup_aupd_self]
        rfl
    | some s =>
        rw [cache_value_new_some c k s v0 h2]
        simp only
        rw [alookup_aupd_self]
        rfl
  have hfin := head_preserved hw hhead h3
  cases hv : alookup (applyOps (cache_value c k s0 v0) ops).values_by_key k with
  | none => rw [hv] at hfin; simp at hfin
  | some pool =>
      rw [get_cached_value_none _ _ hv]
      rw [hv] at hfin
      simpa using hfin

/-- Witness for the amended C4 at concrete inputs: first write 10 for key 0,
then an append, a round-robin mapping write, and a novel read; the
absent-identity read still returns 10. -/
theorem read_absent_returns_first_write_witness :
    (get_cached_value
        (applyOps
          (cache_value (emptyCache : SimpleFunctionCache Nat Nat Nat) 0 none 10)
          [CacheOp.write 0 none 20, CacheOp.write 0 (some 5) 30,
           CacheOp.read 0 (some 6)]) 0 none).1 = some 10 :=
  read_absent_returns_first_write none 10
    [CacheOp.write 0 none 20, CacheOp.write 0 (some 5) 30,
     CacheOp.read 0 (some 6)]
    (by decide) (by decide) (by decide)

theorem get_fst_congr (c c' : SimpleFunctionCache K S V)
    (hv : c'.values_by_key = c.values_by_key)
    (hs : c'.sample_id_by_key = c.sample_id_by_key)
    (hn : c'.num_used_values_by_key = c.num_used_values_by_key)
    (k : K) (skey : Option S) :
    (get_cached_value c' k skey).1 = (get_cached_value c k skey).1 := by
  cases hvv : alookup c.values_by_key k with
  | none =>
      rw [get_cached_value_miss c k skey hvv,
          get_cached_value_miss c' k skey (by rw [hv]; exact hvv)]
  | some pool =>
      cases skey with
      | none =>
          rw [get_cached_value_none c k hvv,
              get_cached_value_none c' k (by rw [hv]; exact hvv)]
      | some s =>
          cases hss : alookup c.sample_id_by_key (k, s) with
          | some i =>
              rw [get_cached_value_mapped c k s hvv hss,
                  get_cached_value_mapped c' k s (by rw [hv]; exact hvv)
                    (by rw [hs]; exact hss)]
          | none =>
              rw [get_cached_value_novel c k s hvv hss,
                  get_cached_value_novel c' k s (by rw [hv]; exact hvv)
                    (by rw [hs]; exact hss)]
              simp [hn]

/-- The store of the save/load scenario of
`caching_test.py::test_write_to_and_load_from_disk`, restricted to one key:
three absent-identity writes then one write with sampling identity 7 (which
round-robin maps identity 7 to index 0). -/
def c5Store : SimpleFunctionCache Nat Nat Nat :=
  applyOps emptyCache
    [CacheOp.write 1 none 10, CacheOp.write 1 none 11,
     CacheOp.write 1 (some 7) 12]

/-- C5: saving a store and loading it with `restore_mapping=true` yields
identical `read` results for every (key, sampling identity) pair; loading
with `restore_mapping=false` restores the identical value sequences but empty
mappings and per-key assigned-count 0, so round-robin assignment restarts at
index 0 and a previously-assigned sampling identity may resolve to a
different index than before the save (witnessed concretely: identity 7 was
mapped to index 0 before the save and resolves to index 1 after a
fresh-mapping reload). -/
theorem save_load_round_trip (c : SimpleFunctionCache K S V) :
    (∀ (k : K) (skey : Option S),
       (get_cached_value (create_from_file (savePayload c) true) k skey).1 =
         (get_cached_value c k skey).1) ∧
    (create_from_file (savePayload c) false).values_by_key =
      c.values_by_key ∧
    (create_from_file (savePayload c) false).sample_id_by_key = [] ∧
    (∀ k : K,
       lookupCount
         (create_from_file (savePayload c) false).num_used_values_by_key k = 0) ∧
    (∀ (k : K) (s : S) (pool : List V), alookup c.values_by_key k = some pool →
       (get_cached_value (create_from_file (savePayload c) false) k
          (some s)).1 = pool[0]?) ∧
    (alookup c5Store.sample_id_by_key (1, 7) = some 0 ∧
     alookup
       (get_cached_value
         ((get_cached_value (create_from_file (savePayload c5Store) false) 1
            (some 8)).2) 1 (some 7)).2.sample_id_by_key (1, 7) = some 1 ∧
     (0 : Nat) ≠ 1) := by
  refine ⟨?_, rfl, rfl, fun k => rfl, ?_, by decide⟩
  · intro k skey
    exact get_fst_congr c (create_from_file (savePayload c) true) rfl rfl rfl
      k skey
  · intro k s pool hv
    have hv' : alookup
        (create_from_file (savePayload c) false).values_by_key k = some pool := hv
    have hs' : alookup
        (create_from_file (savePayload c) false).sample_id_by_key (k, s) =
          none := rfl
    rw [get_cached_value_novel _ k s hv' hs']
    have : lookupCount
        (create_from_file (savePayload c) false).num_used_values_by_key k = 0 := rfl
    rw [this]
    simp

/-- Witness for C5 at a concrete store (C5's only hypotheses are the inner
ones of its conjuncts; they are discharged here at concrete inputs). -/
theorem save_load_round_trip_witness :
    (get_cached_value (create_from_file (savePayload c5Store) true) 1
        (some 7)).1 = (get_cached_value c5Store 1 (some 7)).1 ∧
    (create_from_file (savePayload c5Store) false).values_by_key =
      c5Store.values_by_key ∧
    (create_from_file (savePayload c5Store) false).sample_id_by_key = [] ∧
    lookupCount
      (create_from_file (savePayload c5Store) false).num_used_values_by_key 1 =
        0 ∧
    (get_cached_value (create_from_file (savePayload c5Store) false) 1
        (some 9)).1 = [10, 11, 12][0]? ∧
    alookup c5Store.sample_id_by_key (1, 7) = some 0 := by
  have H := save_load_round_trip c5Store
  exact ⟨H.1 1 (some 7), H.2.1, H.2.2.1, H.2.2.2.1 1,
    H.2.2.2.2.1 1 9 [10, 11, 12] (by decide), H.2.2.2.2.2.1⟩

theorem get_miss_no_mutation {c : SimpleFunctionCache K S V} (h : WF c)
    {k : K} {skey : Option S} (h2 : (get_cached_value c k skey).1 = none) :
    (get_cached_value c k skey).2 = c := by
  cases hv : alookup c.values_by_key k with
  | none => rw [get_cached_value_miss c k skey hv]
  | some pool =>
      have hpne : pool ≠ [] := h.1 _ (alookup_mem hv)
      have hlen : 0 < pool.length := List.length_pos.mpr hpne
      cases skey with
      | none =>
          rw [get_cached_value_none c k hv]
      | some s =>
          cases hs : alookup c.sample_id_by_key (k, s) with
          | some i =>
              have hb := h.2 _ (alookup_mem hs)
              rw [hv] at hb
              simp only [Option.getD_some] at hb
              rw [get_cached_value_mapped c k s hv hs] at h2
              simp only at h2
              rw [List.getElem?_eq_none_iff] at h2
              omega
          | none =>
              rw [get_cached_value_novel c k s hv hs] at h2
              simp only at h2
              rw [List.getElem?_eq_none_iff] at h2
              have := Nat.mod_lt
                (lookupCount c.num_used_values_by_key k) hlen
              omega

/-- C6: when the wrapped operation fails on a cache miss, the failure is
re-raised unchanged, nothing is written to the store (every cache field is
left as it was), the key's in-flight marker is unconditionally cleared, and
in particular a call starting with an empty in-flight set leaves the store
exactly as it found it. -/
theorem failing_call_writes_nothing_and_clears_in_flight {E : Type}
    {c : SimpleFunctionCache K S V} {k : K} {skey : Option S} (e : E)
    (h1 : WF c) (h2 : (get_cached_value c k skey).1 = none) :
    (cached_call c k skey (Except.error e)).1 = Except.error e ∧
    (cached_call c k skey (Except.error e)).2 =
      { c with calls_in_progress :=
          c.calls_in_progress.filter (fun x => decide (x ≠ k)) } ∧
    (c.calls_in_progress = [] →
       (cached_call c k skey (Except.error e)).2 = c) := by
  have hm := get_miss_no_mutation h1 h2
  have main : cached_call c k skey (Except.error e) =
      (Except.error e,
       { c with calls_in_progress :=
           c.calls_in_progress.filter (fun x => decide (x ≠ k)) }) := by
    simp only [cached_call, h2, hm]
    simp
  refine ⟨by rw [main], by rw [main], ?_⟩
  intro hc
  rw [main, hc]
  rw [show (([] : List K).filter (fun x => decide (x ≠ k))) = [] from rfl,
      ← hc]

/-- Witness for C6 at concrete inputs: a failing operation on a miss against
the empty store re-raises the error and returns the store unchanged. -/
theorem failing_call_writes_nothing_and_clears_in_flight_witness :
    (cached_call (emptyCache : SimpleFunctionCache Nat Nat Nat) 0 none
        (Except.error (3 : Nat))).1 = Except.error 3 ∧
    (cached_call (emptyCache : SimpleFunctionCache Nat Nat Nat) 0 none
        (Except.error (3 : Nat))).2 = emptyCache := by
  have H := @failing_call_writes_nothing_and_clears_in_flight
    Nat Nat Nat _ _ _ Nat emptyCache 0 none 3 (by decide) (by decide)
  exact ⟨H.1, H.2.2 rfl⟩

/-- C7: saving to a directory that already contains the deterministically
named target file fails with an already-exists error and leaves the
directory exactly as it was (no partial file is written). -/
theorem save_refuses_existing_file
    (dir : List (String × PersistedCache K S V))
    (c : SimpleFunctionCache K S V) (name : String)
    (payload : PersistedCache K S V)
    (h : alookup dir (add_json_extension name) = some payload) :
    (write_to_directory dir c name).1 =
      Except.error (add_json_extension name ++ " already exists.") ∧
    (write_to_directory dir c name).2 = dir := by
  simp only [write_to_directory, h]
  constructor <;> trivial

/-- Witness for C7 at concrete inputs: saving cache name "my_cache" into a
directory already holding "my_cache.json" fails and changes nothing. -/
theorem save_refuses_existing_file_witness :
    (write_to_directory
        [("my_cache.json", savePayload (emptyCache : SimpleFunctionCache Nat Nat Nat))]
        emptyCache "my_cache").1 =
      Except.error (add_json_extension "my_cache" ++ " already exists.") ∧
    (write_to_directory
        [("my_cache.json", savePayload (emptyCache : SimpleFunctionCache Nat Nat Nat))]
        emptyCache "my_cache").2 =
      [("my_cache.json", savePayload (emptyCache : SimpleFunctionCache Nat Nat Nat))] :=
  save_refuses_existing_file _ _ "my_cache" (savePayload emptyCache) rfl

/-- C8: in extra-replies mode, a non-sequence operation result on a cache
miss fails with the contract-violation error before any cache mutation: the
store comes back exactly as it was. -/
theorem non_sequence_extra_replies_fails {c : SimpleFunctionCache K S V}
    {k : K} {skey : Option S} (v : V) (h1 : WF c)
    (h2 : (get_cached_value c k skey).1 = none) :
    cached_call_extra c k skey (OpResult.scalar v) =
      (Except.error
        ("Method that is decorated with cache_method(cache_extra_replies" ++
         "=True) must return Sequence of values."), c) := by
  have hm := get_miss_no_mutation h1 h2
  simp only [cached_call_extra, h2, hm]

/-- Witness for C8 at concrete inputs. -/
theorem non_sequence_extra_replies_fails_witness :
    cached_call_extra (emptyCache : SimpleFunctionCache Nat Nat Nat) 0 none
        (OpResult.scalar 5) =
      (Except.error
        ("Method that is decorated with cache_method(cache_extra_replies" ++
         "=True) must return Sequence of values."), emptyCache) :=
  non_sequence_extra_replies_fails 5 (by decide) (by decide)

/-- C10: a sampled method called without a surrounding execution context
caches its canonical result under the empty-string sampling key, while the
extra replies go under the absent (`None`) sampling key, so one logical call
populates two distinct (key, sampling-key) entries. -/
theorem sampled_call_canonical_under_empty_string (k : K) (v e1 e2 : V) :
    (run_sampled_extra_replies_call (⟨[]⟩ : TestCache K V) k [v, e1, e2]).1 =
      some v ∧
    (run_sampled_extra_replies_call (⟨[]⟩ : TestCache K V) k
        [v, e1, e2]).2.contents =
      [((k, some ""), [v]), ((k, none), [e1, e2])] ∧
    ((k, (some "" : Option String))) ≠ ((k, (none : Option String))) := by
  refine ⟨rfl, ?_, by simp⟩
  simp [run_sampled_extra_replies_call, TestCache.cache_value, alookup, aupd]

end OneTwo
